import Mathlib

/-!
Shallow embedding of the `embedded-dma` crate (src/lib.rs): the `Word`
marker, the `ReadTarget`/`WriteTarget` contracts with their default
`as_read_buffer`/`as_write_buffer` methods, the enumerated array-length
impls, and the blanket `ReadBuffer`/`WriteBuffer` bridges over stable
dereferencing owners.

The crate is a type-level contract layer, so the embedding models the
closed universe of Rust types that the crate's impls range over, together
with the byte-size arithmetic performed by the default trait methods.
Addresses are modelled as natural numbers in a flat memory model, so the
address of the first element of an array or slice coincides with the
address of the aggregate itself.
-/

namespace EmbeddedDma

/-- The closed universe of Rust types the crate's trait impls range over:
the eight fixed-width integer types that receive `unsafe impl Word`,
the primitive types the spec explicitly excludes from `Word`
(`usize`/`isize`, floats, `bool`), slices `[T]`, fixed-size arrays
`[T; n]`, and `MaybeUninit<T>`. -/
inductive Ty where
  | u8 | i8 | u16 | i16 | u32 | i32 | u64 | i64
  | usize | isize | f32 | f64 | bool
  | slice (elem : Ty)
  | array (elem : Ty) (n : Nat)
  | maybeUninit (t : Ty)
deriving DecidableEq

/-- `unsafe impl Word for ...` — granted to exactly the eight fixed-width
integer types (lib.rs lines 131-138). -/
def is_word : Ty → Bool
  | .u8 | .i8 | .u16 | .i16 | .u32 | .i32 | .u64 | .i64 => true
  | _ => false

/-- `core::mem::size_of` in bytes, on a 64-bit platform. Slices are
unsized; their value size is computed by `size_of_val` below from the
runtime element count, so the `Ty.slice` case here is never consulted for
a well-formed value. `size_of::<MaybeUninit<T>>() = size_of::<T>()` is
guaranteed by Rust. -/
def size_of : Ty → Nat
  | .u8 | .i8 | .bool => 1
  | .u16 | .i16 => 2
  | .u32 | .i32 | .f32 => 4
  | .u64 | .i64 | .f64 | .usize | .isize => 8
  | .slice _ => 0
  | .array t n => n * size_of t
  | .maybeUninit t => size_of t

/-- The enumerated array lengths of the `dma_target_array_impls!`
invocation (lib.rs lines 208-245): 0 through 256, then `1 << 9` up to
`1 << 16`. -/
def dma_array_lens : List Nat :=
  [  0,   1,   2,   3,   4,   5,   6,   7,   8,   9,
    10,  11,  12,  13,  14,  15,  16,  17,  18,  19,
    20,  21,  22,  23,  24,  25,  26,  27,  28,  29,
    30,  31,  32,  33,  34,  35,  36,  37,  38,  39,
    40,  41,  42,  43,  44,  45,  46,  47,  48,  49,
    50,  51,  52,  53,  54,  55,  56,  57,  58,  59,
    60,  61,  62,  63,  64,  65,  66,  67,  68,  69,
    70,  71,  72,  73,  74,  75,  76,  77,  78,  79,
    80,  81,  82,  83,  84,  85,  86,  87,  88,  89,
    90,  91,  92,  93,  94,  95,  96,  97,  98,  99,
   100, 101, 102, 103, 104, 105, 106, 107, 108, 109,
   110, 111, 112, 113, 114, 115, 116, 117, 118, 119,
   120, 121, 122, 123, 124, 125, 126, 127, 128, 129,
   130, 131, 132, 133, 134, 135, 136, 137, 138, 139,
   140, 141, 142, 143, 144, 145, 146, 147, 148, 149,
   150, 151, 152, 153, 154, 155, 156, 157, 158, 159,
   160, 161, 162, 163, 164, 165, 166, 167, 168, 169,
   170, 171, 172, 173, 174, 175, 176, 177, 178, 179,
   180, 181, 182, 183, 184, 185, 186, 187, 188, 189,
   190, 191, 192, 193, 194, 195, 196, 197, 198, 199,
   200, 201, 202, 203, 204, 205, 206, 207, 208, 209,
   210, 211, 212, 213, 214, 215, 216, 217, 218, 219,
   220, 221, 222, 223, 224, 225, 226, 227, 228, 229,
   230, 231, 232, 233, 234, 235, 236, 237, 238, 239,
   240, 241, 242, 243, 244, 245, 246, 247, 248, 249,
   250, 251, 252, 253, 254, 255, 256,
   2 ^  9, 2 ^ 10, 2 ^ 11, 2 ^ 12,
   2 ^ 13, 2 ^ 14, 2 ^ 15, 2 ^ 16]

/-- An array length `n` has a `ReadTarget`/`WriteTarget` impl for
`[T; n]` exactly when it appears in the macro invocation's list. -/
def supported_array_len (n : Nat) : Bool :=
  dma_array_lens.contains n

/-- Which types implement `ReadTarget` (lib.rs lines 178, 186, 197):
every `Word`, `[T]` and supported `[T; n]` for `T: ReadTarget`.
`MaybeUninit<T>` has no `ReadTarget` impl. -/
def is_read_target : Ty → Bool
  | .slice e => is_read_target e
  | .array e n => is_read_target e && supported_array_len n
  | .maybeUninit _ => false
  | t => is_word t

/-- Which types implement `WriteTarget` (lib.rs lines 182, 190, 201, 247):
every `Word`, `[T]` and supported `[T; n]` for `T: WriteTarget`, and
`MaybeUninit<T>` for `T: WriteTarget`. -/
def is_write_target : Ty → Bool
  | .slice e => is_write_target e
  | .array e n => is_write_target e && supported_array_len n
  | .maybeUninit e => is_write_target e
  | t => is_word t

/-- The associated `Word` type of a target: every impl sets
`type Word = T::Word` for the element/wrapped type, and the base impls
for `W: Word` set `type Word = W`. `none` when the innermost type is not
a `Word` (no impl exists there). -/
def word_of : Ty → Option Ty
  | .slice e => word_of e
  | .array e _ => word_of e
  | .maybeUninit e => word_of e
  | t => if is_word t then some t else none

/-- A target value: its type, its base address, and — meaningful only
when the type is a slice — its runtime element count. -/
structure TargetVal where
  ty : Ty
  addr : Nat
  len : Nat
deriving DecidableEq

/-- `core::mem::size_of_val`: for a slice value, runtime element count
times element size; for sized types, `size_of` of the type. -/
def size_of_val (v : TargetVal) : Nat :=
  match v.ty with
  | .slice e => v.len * size_of e
  | t => size_of t

/-- Default `ReadTarget::as_read_buffer` (lib.rs lines 152-156):
`len = size_of_val(self) / size_of::<Self::Word>()`, pointer is `self`
reinterpreted as `*const Self::Word`. Returns `none` when the type has
no associated `Word` (no impl exists). -/
def as_read_buffer (v : TargetVal) : Option (Nat × Nat) :=
  match word_of v.ty with
  | some w => some (v.addr, size_of_val v / size_of w)
  | none => none

/-- Default `WriteTarget::as_write_buffer` (lib.rs lines 171-175):
`len = size_of_val(self) / size_of::<Self::Word>()`, pointer is `self`
reinterpreted as `*mut Self::Word` (mutability is erased in the model). -/
def as_write_buffer (v : TargetVal) : Option (Nat × Nat) :=
  match word_of v.ty with
  | some w => some (v.addr, size_of_val v / size_of w)
  | none => none

/-- An owner with the stable-dereferencing property (`StableDeref` +
`'static` in the blanket impls): dereferencing yields a fixed target
value. -/
structure Owner where
  target : TargetVal

/-- `Deref::deref` / `DerefMut::deref_mut` of a stable owner. -/
def deref (o : Owner) : TargetVal :=
  o.target

/-- The associated `Word` of the blanket `ReadBuffer`/`WriteBuffer`
impls: `type Word = T::Word` for the deref target `T`. -/
def owner_word (o : Owner) : Option Ty :=
  word_of (deref o).ty

/-- Blanket `ReadBuffer::read_buffer` (lib.rs lines 98-108):
`self.as_read_buffer()` on the deref target. Takes `&self`, so the owner
state is returned unchanged. -/
def read_buffer (o : Owner) : Option (Nat × Nat) × Owner :=
  (as_read_buffer (deref o), o)

/-- Blanket `WriteBuffer::write_buffer` (lib.rs lines 110-120):
`self.as_write_buffer()` on the deref target. Takes `&mut self` but
performs no mutation, so the owner state is returned unchanged. -/
def write_buffer (o : Owner) : Option (Nat × Nat) × Owner :=
  (as_write_buffer (deref o), o)

/-! ## Helper lemmas -/

/-- A `Word` type is its own associated `Word`. -/
theorem word_of_self (t : Ty) (h : is_word t = true) : word_of t = some t := by
  cases t <;> simp_all [is_word, word_of]

/-- Every `Word` type has a positive byte size. -/
theorem size_of_word_pos (t : Ty) (h : is_word t = true) : 0 < size_of t := by
  cases t <;> simp_all [is_word, size_of]

/-- Every `ReadTarget` type is also a `WriteTarget` (each `ReadTarget`
impl in the crate is paired with a `WriteTarget` impl). -/
theorem read_target_imp_write_target (t : Ty) (h : is_read_target t = true) :
    is_write_target t = true := by
  induction t <;> simp_all [is_read_target, is_write_target]

/-- Every `WriteTarget` type has an associated `Word` that carries the
`Word` marker and whose byte size divides the type's byte size. -/
theorem write_target_word_spec (t : Ty) (h : is_write_target t = true) :
    ∃ w, word_of t = some w ∧ is_word w = true ∧ size_of w ∣ size_of t := by
  induction t with
  | slice e ih =>
      obtain ⟨w, hw, hww, _⟩ := ih (by simpa [is_write_target] using h)
      exact ⟨w, by simpa [word_of] using hw, hww, by simp [size_of]⟩
  | array e n ih =>
      simp only [is_write_target, Bool.and_eq_true] at h
      obtain ⟨w, hw, hww, hd⟩ := ih h.1
      exact ⟨w, by simpa [word_of] using hw, hww, by simpa [size_of] using hd.mul_left n⟩
  | maybeUninit e ih =>
      obtain ⟨w, hw, hww, hd⟩ := ih (by simpa [is_write_target] using h)
      exact ⟨w, by simpa [word_of] using hw, hww, by simpa [size_of] using hd⟩
  | u8 => exact ⟨.u8, rfl, rfl, dvd_refl _⟩
  | i8 => exact ⟨.i8, rfl, rfl, dvd_refl _⟩
  | u16 => exact ⟨.u16, rfl, rfl, dvd_refl _⟩
  | i16 => exact ⟨.i16, rfl, rfl, dvd_refl _⟩
  | u32 => exact ⟨.u32, rfl, rfl, dvd_refl _⟩
  | i32 => exact ⟨.i32, rfl, rfl, dvd_refl _⟩
  | u64 => exact ⟨.u64, rfl, rfl, dvd_refl _⟩
  | i64 => exact ⟨.i64, rfl, rfl, dvd_refl _⟩
  | usize => simp [is_write_target, is_word] at h
  | isize => simp [is_write_target, is_word] at h
  | f32 => simp [is_write_target, is_word] at h
  | f64 => simp [is_write_target, is_word] at h
  | bool => simp [is_write_target, is_word] at h

/-- Value-level form of `write_target_word_spec`: the word size divides
`size_of_val`, also for slice values whose size is a runtime multiple of
the element size. -/
theorem write_target_dvd_size_of_val (v : TargetVal) (h : is_write_target v.ty = true) :
    ∃ w, word_of v.ty = some w ∧ is_word w = true ∧ size_of w ∣ size_of_val v := by
  obtain ⟨t, a, l⟩ := v
  cases t
  case slice e =>
      obtain ⟨w, hw, hww, hd⟩ :=
        write_target_word_spec e (by simpa [is_write_target] using h)
      exact ⟨w, by simpa [word_of] using hw, hww,
        by simpa [size_of_val] using hd.mul_left l⟩
  all_goals
    obtain ⟨w, hw, hww, hd⟩ := write_target_word_spec _ h
  all_goals
    exact ⟨w, hw, hww, by simpa [size_of_val] using hd⟩

set_option maxRecDepth 4096 in
/-- The enumerated array lengths are exactly 0–256 and the eight powers
of two from 512 to 65536. -/
theorem supported_array_len_iff (n : Nat) :
    supported_array_len n = true ↔
      (n ≤ 256 ∨ n = 512 ∨ n = 1024 ∨ n = 2048 ∨ n = 4096 ∨
       n = 8192 ∨ n = 16384 ∨ n = 32768 ∨ n = 65536) := by
  have h : dma_array_lens = List.range 257 ++
      [512, 1024, 2048, 4096, 8192, 16384, 32768, 65536] := by decide
  simp only [supported_array_len, h]
  simp [List.mem_range]
  omega

/-! ## Claim theorems -/

/-- C1: for a target that is a slice of `n` elements of a word type `W`
(any `n`), or a supported fixed-size array of `n` such elements, both
`as_read_buffer` and `as_write_buffer` return count `n` (the element
count, not the byte length) and a pointer equal to the address of the
first element (which in the flat memory model is the aggregate's base
address). -/
theorem slice_and_array_views_count_elements (W : Ty) (n a l : Nat)
    (hW : is_word W = true) :
    as_read_buffer ⟨.slice W, a, n⟩ = some (a, n) ∧
    as_write_buffer ⟨.slice W, a, n⟩ = some (a, n) ∧
    (supported_array_len n = true →
      as_read_buffer ⟨.array W n, a, l⟩ = some (a, n) ∧
      as_write_buffer ⟨.array W n, a, l⟩ = some (a, n)) := by
  have hw : word_of W = some W := word_of_self W hW
  have hpos : 0 < size_of W := size_of_word_pos W hW
  have hdiv : n * size_of W / size_of W = n := Nat.mul_div_cancel n hpos
  refine ⟨?_, ?_, fun _ => ⟨?_, ?_⟩⟩ <;>
    simp [as_read_buffer, as_write_buffer, word_of, hw, size_of_val, size_of, hdiv]

theorem slice_and_array_views_count_elements_witness :
    is_word Ty.u32 = true ∧ supported_array_len 10 = true ∧
    as_read_buffer ⟨.slice .u32, 4096, 10⟩ = some (4096, 10) ∧
    as_read_buffer ⟨.array .u32 10, 4096, 0⟩ = some (4096, 10) :=
  ⟨by decide, by decide,
    (slice_and_array_views_count_elements .u32 10 4096 0 (by decide)).1,
    ((slice_and_array_views_count_elements .u32 10 4096 0 (by decide)).2.2 (by decide)).1⟩

/-- C2: for a lone word value (a target that is itself a word type `W`),
both views report count exactly 1 and a pointer equal to the value's own
address. -/
theorem lone_word_view_count_one (W : Ty) (a l : Nat) (hW : is_word W = true) :
    as_read_buffer ⟨W, a, l⟩ = some (a, 1) ∧
    as_write_buffer ⟨W, a, l⟩ = some (a, 1) := by
  have hw : word_of W = some W := word_of_self W hW
  have hpos : 0 < size_of W := size_of_word_pos W hW
  have hval : size_of_val ⟨W, a, l⟩ = size_of W := by
    cases W <;> simp_all [is_word, size_of_val]
  constructor <;>
    simp [as_read_buffer, as_write_buffer, hw, hval, Nat.div_self hpos]

theorem lone_word_view_count_one_witness :
    is_word Ty.u16 = true ∧ as_read_buffer ⟨.u16, 64, 0⟩ = some (64, 1) :=
  ⟨by decide, (lone_word_view_count_one .u16 64 0 (by decide)).1⟩

/-- C3: for every supported target shape, the descriptor length equals
`size_of_val(target) / size_of(word)`, and the word's byte size divides
the target's byte size evenly, so the division truncates nothing. -/
theorem view_length_is_byte_ratio (v : TargetVal)
    (h : is_read_target v.ty = true ∨ is_write_target v.ty = true) :
    ∃ w, word_of v.ty = some w ∧
      as_read_buffer v = some (v.addr, size_of_val v / size_of w) ∧
      as_write_buffer v = some (v.addr, size_of_val v / size_of w) ∧
      size_of w ∣ size_of_val v := by
  have hW : is_write_target v.ty = true :=
    h.elim (read_target_imp_write_target v.ty) id
  obtain ⟨w, hw, _, hd⟩ := write_target_dvd_size_of_val v hW
  exact ⟨w, hw, by simp [as_read_buffer, hw], by simp [as_write_buffer, hw], hd⟩

theorem view_length_is_byte_ratio_witness :
    (is_read_target (TargetVal.mk (Ty.maybeUninit (Ty.array .u16 4)) 0 0).ty = true ∨
     is_write_target (TargetVal.mk (Ty.maybeUninit (Ty.array .u16 4)) 0 0).ty = true) ∧
    ∃ w, word_of (TargetVal.mk (Ty.maybeUninit (Ty.array .u16 4)) 0 0).ty = some w ∧
      as_read_buffer ⟨Ty.maybeUninit (Ty.array .u16 4), 0, 0⟩ =
        some (0, size_of_val ⟨Ty.maybeUninit (Ty.array .u16 4), 0, 0⟩ / size_of w) ∧
      as_write_buffer ⟨Ty.maybeUninit (Ty.array .u16 4), 0, 0⟩ =
        some (0, size_of_val ⟨Ty.maybeUninit (Ty.array .u16 4), 0, 0⟩ / size_of w) ∧
      size_of w ∣ size_of_val ⟨Ty.maybeUninit (Ty.array .u16 4), 0, 0⟩ :=
  ⟨Or.inr (by decide),
    view_length_is_byte_ratio ⟨Ty.maybeUninit (Ty.array .u16 4), 0, 0⟩ (Or.inr (by decide))⟩

/-- C4: for an owner with the stable-dereferencing property, two
successive `read_buffer` calls (the second applied to the state returned
by the first) yield identical descriptors, and two successive
`write_buffer` calls both succeed and yield identical (pointer, count)
pairs. -/
theorem repeated_descriptor_calls_identical (o : Owner)
    (h : is_write_target (deref o).ty = true) :
    (read_buffer o).1 = (read_buffer (read_buffer o).2).1 ∧
    (write_buffer o).1 = (write_buffer (write_buffer o).2).1 ∧
    ((write_buffer o).1).isSome = true ∧
    ((write_buffer (write_buffer o).2).1).isSome = true := by
  refine ⟨rfl, rfl, ?_, ?_⟩ <;>
  · obtain ⟨w, hw, _, _⟩ := write_target_dvd_size_of_val (deref o) h
    simp [write_buffer, as_write_buffer, hw]

theorem repeated_descriptor_calls_identical_witness :
    is_write_target (deref ⟨⟨.array .u8 128, 4096, 0⟩⟩).ty = true ∧
    ((read_buffer ⟨⟨.array .u8 128, 4096, 0⟩⟩).1 =
      (read_buffer (read_buffer ⟨⟨.array .u8 128, 4096, 0⟩⟩).2).1 ∧
     (write_buffer ⟨⟨.array .u8 128, 4096, 0⟩⟩).1 =
      (write_buffer (write_buffer ⟨⟨.array .u8 128, 4096, 0⟩⟩).2).1 ∧
     ((write_buffer ⟨⟨.array .u8 128, 4096, 0⟩⟩).1).isSome = true ∧
     ((write_buffer (write_buffer ⟨⟨.array .u8 128, 4096, 0⟩⟩).2).1).isSome = true) :=
  ⟨by decide, repeated_descriptor_calls_identical ⟨⟨.array .u8 128, 4096, 0⟩⟩ (by decide)⟩

/-- C5: the write capability is only derivable for target types whose
associated word carries the `Word` marker: every `WriteTarget` has an
associated `Word` type that implements `Word` (so a type whose innermost
element lacks the marker has no `WriteTarget` impl at all). -/
theorem write_target_word_is_word (t : Ty) (h : is_write_target t = true) :
    ∃ w, word_of t = some w ∧ is_word w = true := by
  obtain ⟨w, hw, hww, _⟩ := write_target_word_spec t h
  exact ⟨w, hw, hww⟩

theorem write_target_word_is_word_witness :
    is_write_target (Ty.maybeUninit (Ty.slice .u16)) = true ∧
    ∃ w, word_of (Ty.maybeUninit (Ty.slice .u16)) = some w ∧ is_word w = true :=
  ⟨by decide, write_target_word_is_word (Ty.maybeUninit (Ty.slice .u16)) (by decide)⟩

/-- C6: the `Word` marker holds for exactly the eight fixed-width
integer types u8, i8, u16, i16, u32, i32, u64, i64 — and hence not for
the floating-point, boolean, or pointer-sized types of the universe. -/
theorem word_marker_exactly_fixed_width_ints (t : Ty) :
    is_word t = true ↔
      (t = .u8 ∨ t = .i8 ∨ t = .u16 ∨ t = .i16 ∨
       t = .u32 ∨ t = .i32 ∨ t = .u64 ∨ t = .i64) := by
  cases t <;> simp [is_word]

/-- C7: `MaybeUninit<T>` is a `WriteTarget` exactly when `T` is, with
`T`'s word type, and is never a `ReadTarget` for any `T`. -/
theorem maybe_uninit_write_only (t : Ty) :
    is_write_target (Ty.maybeUninit t) = is_write_target t ∧
    word_of (Ty.maybeUninit t) = word_of t ∧
    is_read_target (Ty.maybeUninit t) = false :=
  ⟨rfl, rfl, rfl⟩

/-- C8: `[T; n]` is a read/write target for a target type `T` exactly
when `n` is 0–256 or one of the powers of two 512, 1024, 2048, 4096,
8192, 16384, 32768, 65536, and for no other length. -/
theorem array_impls_exact_lengths (t : Ty) (n : Nat) :
    (is_read_target (Ty.array t n) = true ↔
       is_read_target t = true ∧
       (n ≤ 256 ∨ n = 512 ∨ n = 1024 ∨ n = 2048 ∨ n = 4096 ∨
        n = 8192 ∨ n = 16384 ∨ n = 32768 ∨ n = 65536)) ∧
    (is_write_target (Ty.array t n) = true ↔
       is_write_target t = true ∧
       (n ≤ 256 ∨ n = 512 ∨ n = 1024 ∨ n = 2048 ∨ n = 4096 ∨
        n = 8192 ∨ n = 16384 ∨ n = 32768 ∨ n = 65536)) := by
  constructor <;>
    simp [is_read_target, is_write_target, Bool.and_eq_true, supported_array_len_iff n]

/-- C9: the blanket `ReadBuffer`/`WriteBuffer` impls over a stable
dereferencing owner return exactly the target's own view: `read_buffer`
equals `as_read_buffer` of the dereferenced target, `write_buffer`
equals `as_write_buffer` of the dereferenced target, and the owner's
associated `Word` equals the target's. -/
theorem blanket_impl_returns_target_view (o : Owner) :
    (read_buffer o).1 = as_read_buffer (deref o) ∧
    (write_buffer o).1 = as_write_buffer (deref o) ∧
    owner_word o = word_of (deref o).ty :=
  ⟨rfl, rfl, rfl⟩

/-- C10: for every value whose type is both a read target and a write
target, the read view and the write view agree: `as_read_buffer` and
`as_write_buffer` return the same address and count. -/
theorem read_and_write_views_agree (v : TargetVal)
    (hr : is_read_target v.ty = true) (hw : is_write_target v.ty = true) :
    as_read_buffer v = as_write_buffer v := by
  cases hww : word_of v.ty <;> simp [as_read_buffer, as_write_buffer, hww]

theorem read_and_write_views_agree_witness :
    is_read_target (TargetVal.mk .u8 7 0).ty = true ∧
    is_write_target (TargetVal.mk .u8 7 0).ty = true ∧
    as_read_buffer ⟨.u8, 7, 0⟩ = as_write_buffer ⟨.u8, 7, 0⟩ :=
  ⟨by decide, by decide,
    read_and_write_views_agree ⟨.u8, 7, 0⟩ (by decide) (by decide)⟩

end EmbeddedDma
